import Mathlib

/-!
Verification of the shared fixed-buffer greeting module.

The program keeps a single static byte array `BUFFER` of 128 bytes, logically
partitioned at fixed offsets: salutation field at 0, name field at 16, message
field at 32.  Two variants of `set_name` compose the greeting
`salutation ++ ", " ++ name ++ "!"` into the message field and return its byte
length: an in-place variant (`lib_no_growth.rs`, embedded in namespace
`NoGrowth`) that copies bytes directly, and a variant (`lib_growth.rs` and
`lib.rs`, embedded in namespace `Growth`) that decodes both input fields as
UTF-8, formats an intermediate owned `String`, and copies its bytes in.

The buffer is modelled as a `List Nat` of byte values; single-byte stores are
`List.set`.  A Rust panic (out-of-bounds slice, or `unwrap` on a UTF-8 decode
failure) is modelled as `none`.
-/

/-- Total capacity of the static buffer (`MEMORY_BUFFER_SIZE` in all three
source files). -/
def MEMORY_BUFFER_SIZE : Nat := 128

/-- Byte offset of the salutation field. -/
def SALUT_OFFSET : Nat := 0

/-- Byte offset of the name field. -/
def NAME_OFFSET : Nat := 16

/-- Byte offset of the message field. -/
def MSG_OFFSET : Nat := 32

/-- Byte value of the space character, `SPACE` in `lib_no_growth.rs`. -/
def SPACE : Nat := 32

/-- Byte value of the exclamation mark, `BANG` in `lib_no_growth.rs`. -/
def BANG : Nat := 33

/-- Byte value of the comma, `COMMA` in `lib_no_growth.rs`. -/
def COMMA : Nat := 44

/-- Store the bytes of `data` at consecutive buffer positions starting at `dst`,
one `List.set` per byte.  This models a sequential loop of single-byte stores
into the static buffer.  (A store past the end of the list is dropped, where
the Rust code would panic; every claim below stays in bounds.) -/
def writeBytes (buf : List Nat) (dst : Nat) (data : List Nat) : List Nat :=
  match data with
  | [] => buf
  | b :: rest => writeBytes (buf.set dst b) (dst + 1) rest

/-- Read `len` bytes of `buf` starting at position `fro`.  This models the host
reading `len` bytes through a pointer at offset `fro`.  (A read past the end of
the list gives 0; every claim below stays in bounds.) -/
def readBytes (buf : List Nat) (fro len : Nat) : List Nat :=
  (List.range len).map fun i => buf.getD (fro + i) 0

namespace NoGrowth

/-- Embeds `copy_bytes` of `src/src/lib_no_growth.rs`: iterate over the source
slice `BUFFER[from..(from + len)]` and store each byte at `dst + idx`.  The
iteration reads each source byte from the buffer as it stands when that
element is visited, so the fold threads the partially written buffer. -/
def copy_bytes (buf : List Nat) (dst fro : Nat) (len : Nat) : List Nat :=
  (List.range len).foldl (fun b idx => b.set (dst + idx) (b.getD (fro + idx) 0)) buf

/-- Embeds `set_name` of `src/src/lib_no_growth.rs`: copy the salutation bytes
into the message field, append a comma and a space, copy the name bytes, append
a bang, and return the number of bytes written (final index minus
`MSG_OFFSET`).  No intermediate allocation and no UTF-8 decoding happens. -/
def set_name (buf : List Nat) (sal_len name_len : Nat) : List Nat × Nat :=
  let b1 := copy_bytes buf MSG_OFFSET SALUT_OFFSET sal_len
  let idx1 := MSG_OFFSET + sal_len
  let b2 := b1.set idx1 COMMA
  let b3 := b2.set (idx1 + 1) SPACE
  let idx2 := idx1 + 2
  let b4 := copy_bytes b3 idx2 NAME_OFFSET name_len
  let idx3 := idx2 + name_len
  let b5 := b4.set idx3 BANG
  (b5, idx3 + 1 - MSG_OFFSET)

end NoGrowth

/-- True when `b` is a UTF-8 continuation byte (`0x80..0xBF`). -/
def utf8cont (b : Nat) : Bool := 0x80 ≤ b && b ≤ 0xBF

/-- Validity of a byte sequence as UTF-8, exactly the acceptance condition of
`std::str::from_utf8`: ASCII bytes stand alone; `0xC2..0xDF` open a 2-byte
sequence; `0xE0`, `0xE1..0xEC`, `0xED`, `0xEE..0xEF` open 3-byte sequences
with their respective restricted second bytes (overlong forms and surrogates
rejected); `0xF0`, `0xF1..0xF3`, `0xF4` open 4-byte sequences likewise; every
other leading byte is invalid. -/
def utf8valid : List Nat → Bool
  | [] => true
  | b :: rest =>
    if b ≤ 0x7F then utf8valid rest
    else if 0xC2 ≤ b && b ≤ 0xDF then
      match rest with
      | c :: r => utf8cont c && utf8valid r
      | [] => false
    else if b = 0xE0 then
      match rest with
      | c :: d :: r => (0xA0 ≤ c && c ≤ 0xBF) && utf8cont d && utf8valid r
      | _ => false
    else if (0xE1 ≤ b && b ≤ 0xEC) || b = 0xEE || b = 0xEF then
      match rest with
      | c :: d :: r => utf8cont c && utf8cont d && utf8valid r
      | _ => false
    else if b = 0xED then
      match rest with
      | c :: d :: r => (0x80 ≤ c && c ≤ 0x9F) && utf8cont d && utf8valid r
      | _ => false
    else if b = 0xF0 then
      match rest with
      | c :: d :: e :: r => (0x90 ≤ c && c ≤ 0xBF) && utf8cont d && utf8cont e && utf8valid r
      | _ => false
    else if 0xF1 ≤ b && b ≤ 0xF3 then
      match rest with
      | c :: d :: e :: r => utf8cont c && utf8cont d && utf8cont e && utf8valid r
      | _ => false
    else if b = 0xF4 then
      match rest with
      | c :: d :: e :: r => (0x80 ≤ c && c ≤ 0x8F) && utf8cont d && utf8cont e && utf8valid r
      | _ => false
    else false

namespace Growth

/-- Embeds `str_from_buffer` of `src/src/lib_growth.rs` (identical in
`src/src/lib.rs`): `std::str::from_utf8(&BUFFER[from..(from + len)]).unwrap()`.
Slicing out of bounds or failing the UTF-8 decode panics, modelled as `none`;
on success the view is exactly the sliced bytes. -/
def str_from_buffer (buf : List Nat) (fro len : Nat) : Option (List Nat) :=
  if fro + len ≤ buf.length ∧ utf8valid ((buf.drop fro).take len) = true then
    some ((buf.drop fro).take len)
  else none

/-- Embeds `set_name` of `src/src/lib_growth.rs` (identical logic in
`src/src/lib.rs`): decode the two input fields, build the intermediate owned
string `format!("\x7b\x7d, \x7b\x7d!", sal, name)` — whose bytes are
`sal ++ [COMMA, SPACE] ++ name ++ [BANG]` — copy its bytes into the message
field one by one, and return its length.  A decode failure panics (`none`). -/
def set_name (buf : List Nat) (sal_len name_len : Nat) : Option (List Nat × Nat) :=
  match str_from_buffer buf SALUT_OFFSET sal_len, str_from_buffer buf NAME_OFFSET name_len with
  | some sal, some name =>
    let greeting := sal ++ [COMMA, SPACE] ++ name ++ [BANG]
    some (writeBytes buf MSG_OFFSET greeting, greeting.length)
  | _, _ => none

end Growth

/-- Machine state seen by the host: the base address of the static `BUFFER`
inside linear memory, plus the buffer contents.  The pointer accessors are
functions of the base address and the fixed offsets. -/
structure WasmState where
  base : Nat
  buf : List Nat

/-- Embeds `get_ptr`: `BUFFER.as_ptr().add(offset)`. -/
def get_ptr (s : WasmState) (offset : Nat) : Nat := s.base + offset

/-- Embeds `get_salutation_ptr` of `src/src/lib_no_growth.rs`. -/
def get_salutation_ptr (s : WasmState) : Nat := get_ptr s SALUT_OFFSET

/-- Embeds `get_name_ptr` of `src/src/lib_no_growth.rs`. -/
def get_name_ptr (s : WasmState) : Nat := get_ptr s NAME_OFFSET

/-- Embeds `get_msg_ptr` of `src/src/lib_no_growth.rs`. -/
def get_msg_ptr (s : WasmState) : Nat := get_ptr s MSG_OFFSET

/-- The in-place `set_name` acting on the machine state: it performs only
single-byte stores into the existing buffer (no allocation), so the buffer
contents change but the base address of the static buffer does not. -/
def set_name_state (s : WasmState) (sal_len name_len : Nat) : WasmState × Nat :=
  let r := NoGrowth.set_name s.buf sal_len name_len
  (⟨s.base, r.1⟩, r.2)

/-- Run an arbitrary sequence of in-place `set_name` calls, threading the
machine state. -/
def run_calls (s : WasmState) (calls : List (Nat × Nat)) : WasmState :=
  calls.foldl (fun st c => (set_name_state st c.1 c.2).1) s

/-- Steps (1) and (2) of the host protocol: write the salutation bytes at
offset 0 and the name bytes at offset 16. -/
def protocolBuf (buf0 sal name : List Nat) : List Nat :=
  writeBytes (writeBytes buf0 SALUT_OFFSET sal) NAME_OFFSET name

/-! ### Basic lemmas about the byte-store and byte-read primitives -/

theorem length_writeBytes (data : List Nat) (buf : List Nat) (dst : Nat) :
    (writeBytes buf dst data).length = buf.length := by
  induction data generalizing buf dst with
  | nil => rfl
  | cons b rest ih => simp only [writeBytes]; rw [ih, List.length_set]

theorem getD_set_ne (buf : List Nat) (i j v : Nat) (h : i ≠ j) :
    (buf.set i v).getD j 0 = buf.getD j 0 := by
  simp [List.getD_eq_getElem?_getD, List.getElem?_set_ne h]

theorem getD_writeBytes_lt (data : List Nat) (buf : List Nat) (dst i : Nat) (h : i < dst) :
    (writeBytes buf dst data).getD i 0 = buf.getD i 0 := by
  induction data generalizing buf dst with
  | nil => rfl
  | cons b rest ih =>
    simp only [writeBytes]
    rw [ih _ _ (by omega), getD_set_ne _ _ _ _ (by omega)]

theorem getD_writeBytes_ge (data : List Nat) (buf : List Nat) (dst i : Nat)
    (h : dst + data.length ≤ i) :
    (writeBytes buf dst data).getD i 0 = buf.getD i 0 := by
  induction data generalizing buf dst with
  | nil => rfl
  | cons b rest ih =>
    simp only [writeBytes]
    simp only [List.length_cons] at h
    rw [ih _ _ (by omega), getD_set_ne _ _ _ _ (by omega)]

theorem getD_writeBytes_mid (data : List Nat) (buf : List Nat) (dst i : Nat)
    (h1 : dst ≤ i) (h2 : i < dst + data.length) (h3 : dst + data.length ≤ buf.length) :
    (writeBytes buf dst data).getD i 0 = data.getD (i - dst) 0 := by
  induction data generalizing buf dst with
  | nil => simp only [List.length_nil] at h2; omega
  | cons b rest ih =>
    simp only [writeBytes]
    simp only [List.length_cons] at h2 h3
    by_cases hc : i = dst
    · subst hc
      rw [getD_writeBytes_lt _ _ _ _ (by omega)]
      have hi : i < buf.length := by omega
      simp [List.getD_eq_getElem?_getD, List.getElem?_set_self hi]
    · rw [ih _ _ (by omega) (by omega) (by rw [List.length_set]; omega)]
      have hrw : i - dst = (i - (dst + 1)) + 1 := by omega
      rw [hrw, List.getD_cons_succ]

theorem length_readBytes (buf : List Nat) (fro len : Nat) :
    (readBytes buf fro len).length = len := by
  simp [readBytes]

theorem getD_readBytes (buf : List Nat) (fro len i : Nat) (h : i < len) :
    (readBytes buf fro len).getD i 0 = buf.getD (fro + i) 0 := by
  have hl : i < (readBytes buf fro len).length := by rw [length_readBytes]; exact h
  rw [List.getD_eq_getElem _ _ hl]
  simp [readBytes]

theorem readBytes_succ (buf : List Nat) (fro len : Nat) :
    readBytes buf fro (len + 1) = readBytes buf fro len ++ [buf.getD (fro + len) 0] := by
  simp [readBytes, List.range_succ]

theorem readBytes_writeBytes_left (buf data : List Nat) (dst fro len : Nat)
    (h : fro + len ≤ dst) :
    readBytes (writeBytes buf dst data) fro len = readBytes buf fro len := by
  apply List.ext_getElem (by simp [length_readBytes])
  intro i h1 h2
  rw [← List.getD_eq_getElem _ 0 h1, ← List.getD_eq_getElem _ 0 h2]
  rw [length_readBytes] at h1
  rw [getD_readBytes _ _ _ _ h1, getD_readBytes _ _ _ _ h1,
    getD_writeBytes_lt _ _ _ _ (by omega)]

theorem readBytes_writeBytes_self (buf data : List Nat) (dst : Nat)
    (h : dst + data.length ≤ buf.length) :
    readBytes (writeBytes buf dst data) dst data.length = data := by
  apply List.ext_getElem (by simp [length_readBytes])
  intro i h1 h2
  rw [← List.getD_eq_getElem _ 0 h1]
  rw [length_readBytes] at h1
  rw [getD_readBytes _ _ _ _ h1,
    getD_writeBytes_mid _ _ _ _ (by omega) (by omega) h]
  have hrw : dst + i - dst = i := by omega
  rw [hrw, List.getD_eq_getElem _ _ h2]

theorem writeBytes_append (d1 d2 : List Nat) (buf : List Nat) (dst : Nat) :
    writeBytes buf dst (d1 ++ d2) = writeBytes (writeBytes buf dst d1) (dst + d1.length) d2 := by
  induction d1 generalizing buf dst with
  | nil => simp [writeBytes]
  | cons b rest ih =>
    simp only [List.cons_append, writeBytes, List.length_cons, List.append_eq]
    rw [ih]
    have hrw : dst + 1 + rest.length = dst + (rest.length + 1) := by omega
    rw [hrw]

theorem set_eq_writeBytes (buf : List Nat) (i v : Nat) :
    buf.set i v = writeBytes buf i [v] := rfl

/-! ### Characterization of `copy_bytes` and of the two `set_name` variants -/

theorem copy_bytes_eq (buf : List Nat) (dst fro len : Nat) (h : fro + len ≤ dst) :
    NoGrowth.copy_bytes buf dst fro len = writeBytes buf dst (readBytes buf fro len) := by
  induction len with
  | zero => rfl
  | succ m ih =>
    have hm : fro + m ≤ dst := by omega
    simp only [NoGrowth.copy_bytes, List.range_succ, List.foldl_append, List.foldl_cons,
      List.foldl_nil]
    simp only [NoGrowth.copy_bytes] at ih
    rw [ih hm]
    rw [getD_writeBytes_lt _ _ _ _ (by omega)]
    rw [readBytes_succ, writeBytes_append, length_readBytes]
    rw [set_eq_writeBytes]


theorem readBytes_set_left (buf : List Nat) (i v fro len : Nat) (h : fro + len ≤ i) :
    readBytes (buf.set i v) fro len = readBytes buf fro len := by
  apply List.ext_getElem (by simp [length_readBytes])
  intro j h1 h2
  rw [← List.getD_eq_getElem _ 0 h1, ← List.getD_eq_getElem _ 0 h2]
  rw [length_readBytes] at h1
  rw [getD_readBytes _ _ _ _ h1, getD_readBytes _ _ _ _ h1,
    getD_set_ne _ _ _ _ (by omega)]

theorem writeBytes_pair (buf : List Nat) (i a b : Nat) :
    writeBytes buf i [a, b] = (buf.set i a).set (i + 1) b := rfl

theorem writeBytes_one (buf : List Nat) (i a : Nat) :
    writeBytes buf i [a] = buf.set i a := rfl

theorem set_name_no_growth_eq (buf : List Nat) (s n : Nat)
    (hs : s ≤ 16) (hn : n ≤ 16) :
    NoGrowth.set_name buf s n =
      (writeBytes buf MSG_OFFSET
        (readBytes buf SALUT_OFFSET s ++ [COMMA, SPACE] ++ readBytes buf NAME_OFFSET n
          ++ [BANG]),
       s + n + 3) := by
  have hA : (readBytes buf 0 s).length = s := length_readBytes _ _ _
  have hB : (readBytes buf 16 n).length = n := length_readBytes _ _ _
  simp only [NoGrowth.set_name, MSG_OFFSET, SALUT_OFFSET, NAME_OFFSET, COMMA, SPACE, BANG,
    Prod.mk.injEq]
  refine ⟨?_, by omega⟩
  rw [copy_bytes_eq buf 32 0 s (by omega)]
  rw [copy_bytes_eq _ (32 + s + 2) 16 n (by omega)]
  rw [readBytes_set_left _ _ _ _ _ (by omega), readBytes_set_left _ _ _ _ _ (by omega),
    readBytes_writeBytes_left _ _ _ _ _ (by omega)]
  conv_rhs => rw [writeBytes_append, writeBytes_append, writeBytes_append]
  simp only [List.length_append, List.length_cons, List.length_nil, hA, hB]
  rw [writeBytes_pair, writeBytes_one]
  rw [show (32 : Nat) + (s + (0 + 1 + 1)) = 32 + s + 2 from by omega]
  rw [show (32 : Nat) + (s + (0 + 1 + 1) + n) = 32 + s + 2 + n from by omega]

theorem take_drop_eq_readBytes (buf : List Nat) (fro len : Nat)
    (h : fro + len ≤ buf.length) :
    (buf.drop fro).take len = readBytes buf fro len := by
  apply List.ext_getElem
  · simp [length_readBytes, List.length_take, List.length_drop]; omega
  · intro i h1 h2
    rw [List.getElem_take, List.getElem_drop]
    rw [← List.getD_eq_getElem _ 0 h2]
    rw [length_readBytes] at h2
    rw [getD_readBytes _ _ _ _ h2]
    rw [List.getD_eq_getElem _ 0 (by omega)]

theorem set_name_growth_eq (buf : List Nat) (s n : Nat)
    (hsb : SALUT_OFFSET + s ≤ buf.length) (hnb : NAME_OFFSET + n ≤ buf.length)
    (hv1 : utf8valid (readBytes buf SALUT_OFFSET s) = true)
    (hv2 : utf8valid (readBytes buf NAME_OFFSET n) = true) :
    Growth.set_name buf s n =
      some (writeBytes buf MSG_OFFSET
        (readBytes buf SALUT_OFFSET s ++ [COMMA, SPACE] ++ readBytes buf NAME_OFFSET n
          ++ [BANG]),
       s + n + 3) := by
  simp only [SALUT_OFFSET, NAME_OFFSET, MSG_OFFSET] at *
  simp only [Growth.set_name, Growth.str_from_buffer, SALUT_OFFSET, NAME_OFFSET, MSG_OFFSET]
  rw [take_drop_eq_readBytes _ _ _ hsb, take_drop_eq_readBytes _ _ _ hnb]
  rw [if_pos ⟨hsb, hv1⟩, if_pos ⟨hnb, hv2⟩]
  simp only [Option.some.injEq, Prod.mk.injEq]
  refine ⟨trivial, ?_⟩
  simp [List.length_append, length_readBytes]
  omega

theorem set_name_growth_none (buf : List Nat) (s n : Nat)
    (hv : ¬ (SALUT_OFFSET + s ≤ buf.length ∧ utf8valid (readBytes buf SALUT_OFFSET s) = true)
        ∨ ¬ (NAME_OFFSET + n ≤ buf.length ∧ utf8valid (readBytes buf NAME_OFFSET n) = true)) :
    Growth.set_name buf s n = none := by
  simp only [SALUT_OFFSET, NAME_OFFSET] at hv
  simp only [Growth.set_name, Growth.str_from_buffer, SALUT_OFFSET, NAME_OFFSET]
  rcases hv with hv | hv
  · have hcond : ¬ (0 + s ≤ buf.length ∧ utf8valid ((buf.drop 0).take s) = true) := by
      intro hc
      exact hv ⟨hc.1, by rw [← take_drop_eq_readBytes _ _ _ hc.1]; exact hc.2⟩
    rw [if_neg hcond]
  · have hcond : ¬ (16 + n ≤ buf.length ∧ utf8valid ((buf.drop 16).take n) = true) := by
      intro hc
      exact hv ⟨hc.1, by rw [← take_drop_eq_readBytes _ _ _ hc.1]; exact hc.2⟩
    rw [if_neg hcond]
    cases h1 : if 0 + s ≤ buf.length ∧ utf8valid ((buf.drop 0).take s) = true
        then some ((buf.drop 0).take s) else none <;> rfl

theorem set_name_growth_inv (buf : List Nat) (s n : Nat) (b : List Nat) (r : Nat)
    (h : Growth.set_name buf s n = some (b, r)) :
    SALUT_OFFSET + s ≤ buf.length ∧ NAME_OFFSET + n ≤ buf.length ∧
    utf8valid (readBytes buf SALUT_OFFSET s) = true ∧
    utf8valid (readBytes buf NAME_OFFSET n) = true ∧
    b = writeBytes buf MSG_OFFSET
      (readBytes buf SALUT_OFFSET s ++ [COMMA, SPACE] ++ readBytes buf NAME_OFFSET n
        ++ [BANG]) ∧
    r = s + n + 3 := by
  by_cases h1 : SALUT_OFFSET + s ≤ buf.length ∧ utf8valid (readBytes buf SALUT_OFFSET s) = true
  · by_cases h2 : NAME_OFFSET + n ≤ buf.length ∧ utf8valid (readBytes buf NAME_OFFSET n) = true
    · rw [set_name_growth_eq buf s n h1.1 h2.1 h1.2 h2.2] at h
      simp only [Option.some.injEq, Prod.mk.injEq] at h
      exact ⟨h1.1, h2.1, h1.2, h2.2, h.1.symm, h.2.symm⟩
    · rw [set_name_growth_none buf s n (Or.inr h2)] at h
      exact absurd h (by simp)
  · rw [set_name_growth_none buf s n (Or.inl h1)] at h
    exact absurd h (by simp)

theorem writeBytes_overwrite (buf d : List Nat) (dst : Nat)
    (h : dst + d.length ≤ buf.length) :
    writeBytes (writeBytes buf dst d) dst d = writeBytes buf dst d := by
  apply List.ext_getElem (by simp [length_writeBytes])
  intro i h1 h2
  rw [← List.getD_eq_getElem _ 0 h1, ← List.getD_eq_getElem _ 0 h2]
  by_cases hlt : i < dst
  · rw [getD_writeBytes_lt _ _ _ _ hlt, getD_writeBytes_lt _ _ _ _ hlt]
  · by_cases hge : dst + d.length ≤ i
    · rw [getD_writeBytes_ge _ _ _ _ hge, getD_writeBytes_ge _ _ _ _ hge]
    · rw [getD_writeBytes_mid _ _ _ _ (by omega) (by omega)
          (by rw [length_writeBytes]; exact h),
        getD_writeBytes_mid _ _ _ _ (by omega) (by omega) h]

theorem protocolBuf_length (buf0 sal name : List Nat) :
    (protocolBuf buf0 sal name).length = buf0.length := by
  simp [protocolBuf, length_writeBytes]

theorem protocolBuf_salutation (buf0 sal name : List Nat)
    (h0 : sal.length ≤ buf0.length) (hs : sal.length ≤ 16) :
    readBytes (protocolBuf buf0 sal name) SALUT_OFFSET sal.length = sal := by
  simp only [protocolBuf, SALUT_OFFSET, NAME_OFFSET]
  rw [readBytes_writeBytes_left _ _ _ _ _ (by omega)]
  have := readBytes_writeBytes_self buf0 sal 0 (by omega)
  simpa using this

theorem protocolBuf_name (buf0 sal name : List Nat)
    (h0 : 16 + name.length ≤ buf0.length) :
    readBytes (protocolBuf buf0 sal name) NAME_OFFSET name.length = name := by
  simp only [protocolBuf, SALUT_OFFSET, NAME_OFFSET]
  exact readBytes_writeBytes_self _ name 16 (by rw [length_writeBytes]; omega)

/-! ### The claims -/

/-- C2: for the in-place-copy variant, the address values returned by
`get_salutation_ptr`, `get_name_ptr` and `get_msg_ptr` are each unchanged
across any number of `set_name` invocations, and always equal the buffer base
address plus the fixed offsets 0, 16 and 32 respectively. -/
theorem pointer_stability (s : WasmState) (calls : List (Nat × Nat)) :
    get_salutation_ptr (run_calls s calls) = get_salutation_ptr s ∧
    get_name_ptr (run_calls s calls) = get_name_ptr s ∧
    get_msg_ptr (run_calls s calls) = get_msg_ptr s ∧
    get_salutation_ptr s = s.base + 0 ∧
    get_name_ptr s = s.base + 16 ∧
    get_msg_ptr s = s.base + 32 := by
  have hbase : ∀ (cs : List (Nat × Nat)) (st : WasmState), (run_calls st cs).base = st.base := by
    intro cs
    induction cs with
    | nil => intro st; rfl
    | cons c rest ih =>
      intro st
      have hstep : run_calls st (c :: rest) = run_calls ((set_name_state st c.1 c.2).1) rest :=
        rfl
      rw [hstep, ih]
      rfl
    
  simp [get_salutation_ptr, get_name_ptr, get_msg_ptr, get_ptr, hbase,
    SALUT_OFFSET, NAME_OFFSET, MSG_OFFSET]

/-- C3 counterexample: with the 5 bytes of "Hello" at offset 0 and the 5 bytes
of "World" at offset 16, `set_name 5 5` does not return 12: the greeting
"Hello, World!" is 13 bytes long, and the call returns 13 (both variants). -/
theorem hello_world_not_12 :
    (NoGrowth.set_name (protocolBuf (List.replicate 128 0)
        [72, 101, 108, 108, 111] [87, 111, 114, 108, 100]) 5 5).2 ≠ 12 ∧
    (Growth.set_name (protocolBuf (List.replicate 128 0)
        [72, 101, 108, 108, 111] [87, 111, 114, 108, 100]) 5 5).map Prod.snd ≠ some 12 := by
  set_option maxRecDepth 10000 in decide

/-- C3 (amended): with the 5 bytes of "Hello" at offset 0 and the 5 bytes of
"World" at offset 16, `set_name 5 5` returns 13, and the 13 bytes at the
message offset are exactly the UTF-8 encoding of "Hello, World!" (a valid
UTF-8 sequence); the String-formatting variant agrees. -/
theorem hello_world_scenario :
    (NoGrowth.set_name (protocolBuf (List.replicate 128 0)
        [72, 101, 108, 108, 111] [87, 111, 114, 108, 100]) 5 5).2 = 13 ∧
    readBytes (NoGrowth.set_name (protocolBuf (List.replicate 128 0)
        [72, 101, 108, 108, 111] [87, 111, 114, 108, 100]) 5 5).1 MSG_OFFSET 13
      = [72, 101, 108, 108, 111, 44, 32, 87, 111, 114, 108, 100, 33] ∧
    utf8valid [72, 101, 108, 108, 111, 44, 32, 87, 111, 114, 108, 100, 33] = true ∧
    Growth.set_name (protocolBuf (List.replicate 128 0)
        [72, 101, 108, 108, 111] [87, 111, 114, 108, 100]) 5 5
      = some ((NoGrowth.set_name (protocolBuf (List.replicate 128 0)
        [72, 101, 108, 108, 111] [87, 111, 114, 108, 100]) 5 5).1, 13) := by
  set_option maxRecDepth 10000 in decide

/-- C1: for every pair of byte strings (salutation, name) with lengths at most
16 and combined output at most 96 bytes, after writing the salutation at
offset 0 and the name at offset 16 and calling `set_name` with the two
lengths, the bytes in the message field starting at offset 32 equal
`salutation ++ ", " ++ name ++ "!"` and the returned value equals the byte
length of that sequence; the in-place variant satisfies this for every such
pair, and the String-formatting variant agrees whenever the two fields decode
as UTF-8. -/
theorem set_name_protocol_correct (buf0 sal name : List Nat)
    (h0 : buf0.length = MEMORY_BUFFER_SIZE)
    (hb1 : ∀ b ∈ sal, b < 256) (hb2 : ∀ b ∈ name, b < 256)
    (hs : sal.length ≤ 16) (hn : name.length ≤ 16)
    (hm : sal.length + name.length + 3 ≤ 96) :
    (NoGrowth.set_name (protocolBuf buf0 sal name) sal.length name.length).2
      = (sal ++ [COMMA, SPACE] ++ name ++ [BANG]).length ∧
    readBytes (NoGrowth.set_name (protocolBuf buf0 sal name) sal.length name.length).1
        MSG_OFFSET (sal ++ [COMMA, SPACE] ++ name ++ [BANG]).length
      = sal ++ [COMMA, SPACE] ++ name ++ [BANG] ∧
    (utf8valid sal = true → utf8valid name = true →
      Growth.set_name (protocolBuf buf0 sal name) sal.length name.length
        = some ((NoGrowth.set_name (protocolBuf buf0 sal name) sal.length name.length).1,
            (sal ++ [COMMA, SPACE] ++ name ++ [BANG]).length)) := by
  simp only [MEMORY_BUFFER_SIZE] at h0
  have hPlen : (protocolBuf buf0 sal name).length = 128 := by
    rw [protocolBuf_length, h0]
  have hsal : readBytes (protocolBuf buf0 sal name) SALUT_OFFSET sal.length = sal :=
    protocolBuf_salutation buf0 sal name (by omega) hs
  have hname : readBytes (protocolBuf buf0 sal name) NAME_OFFSET name.length = name :=
    protocolBuf_name buf0 sal name (by omega)
  have hng := set_name_no_growth_eq (protocolBuf buf0 sal name) sal.length name.length hs hn
  rw [hsal, hname] at hng
  have hglen : (sal ++ [COMMA, SPACE] ++ name ++ [BANG]).length
      = sal.length + name.length + 3 := by
    simp [List.length_append]
    omega
  refine ⟨?_, ?_, ?_⟩
  · rw [hng, hglen]
  · rw [hng]
    have := readBytes_writeBytes_self (protocolBuf buf0 sal name)
      (sal ++ [COMMA, SPACE] ++ name ++ [BANG]) MSG_OFFSET
      (by rw [hPlen, hglen]; simp only [MSG_OFFSET]; omega)
    exact this
  · intro hv1 hv2
    have hgr := set_name_growth_eq (protocolBuf buf0 sal name) sal.length name.length
      (by rw [hPlen]; simp only [SALUT_OFFSET]; omega)
      (by rw [hPlen]; simp only [NAME_OFFSET]; omega)
      (by rw [hsal]; exact hv1) (by rw [hname]; exact hv2)
    rw [hsal, hname] at hgr
    rw [hgr, hng, hglen]

/-- Witness for C1 at the concrete input "Hello" and "World" over a zeroed
buffer. -/
theorem set_name_protocol_correct_witness :
    (NoGrowth.set_name (protocolBuf (List.replicate 128 0)
        [72, 101, 108, 108, 111] [87, 111, 114, 108, 100]) 5 5).2
      = ([72, 101, 108, 108, 111] ++ [COMMA, SPACE] ++ [87, 111, 114, 108, 100]
          ++ [BANG]).length :=
  (set_name_protocol_correct (List.replicate 128 0) [72, 101, 108, 108, 111]
    [87, 111, 114, 108, 100] (by simp [MEMORY_BUFFER_SIZE]) (by decide) (by decide) (by decide) (by decide)
    (by decide)).1

/-- C4: for every input satisfying the preconditions (field lengths at most
16, combined output at most 96 bytes, both input fields valid UTF-8), the
String-formatting variant of `set_name` (`lib_growth.rs` and `lib.rs`) and the
in-place variant (`lib_no_growth.rs`) return the same value and leave the same
final buffer contents. -/
theorem growth_refines_no_growth (buf : List Nat) (s n : Nat)
    (h0 : buf.length = MEMORY_BUFFER_SIZE)
    (hs : s ≤ 16) (hn : n ≤ 16) (hm : s + n + 3 ≤ 96)
    (hv1 : utf8valid (readBytes buf SALUT_OFFSET s) = true)
    (hv2 : utf8valid (readBytes buf NAME_OFFSET n) = true) :
    Growth.set_name buf s n = some (NoGrowth.set_name buf s n) := by
  simp only [MEMORY_BUFFER_SIZE] at h0
  rw [set_name_growth_eq buf s n (by simp only [SALUT_OFFSET]; omega)
      (by simp only [NAME_OFFSET]; omega) hv1 hv2,
    set_name_no_growth_eq buf s n hs hn]

/-- Witness for C4 at the concrete input "Hello" and "World" over a zeroed
buffer. -/
theorem growth_refines_no_growth_witness :
    Growth.set_name (protocolBuf (List.replicate 128 0)
        [72, 101, 108, 108, 111] [87, 111, 114, 108, 100]) 5 5
      = some (NoGrowth.set_name (protocolBuf (List.replicate 128 0)
        [72, 101, 108, 108, 111] [87, 111, 114, 108, 100]) 5 5) :=
  growth_refines_no_growth _ 5 5
    (by simp [protocolBuf_length, MEMORY_BUFFER_SIZE]) (by decide) (by decide) (by decide)
    (by set_option maxRecDepth 10000 in decide)
    (by set_option maxRecDepth 10000 in decide)

/-- C5 counterexample: an in-bounds input whose salutation field byte (0xFF)
is not valid UTF-8 on which the in-place `set_name` (one of the cited
implementations of the operation) completes normally — it returns 5 and writes
the verbatim concatenation — so malformed UTF-8 does not cause a decode
failure for every implementation of `set_name`. -/
theorem invalid_utf8_no_failure_in_place :
    utf8valid (readBytes (protocolBuf (List.replicate 128 0) [255] [66]) SALUT_OFFSET 1)
      = false ∧
    (NoGrowth.set_name (protocolBuf (List.replicate 128 0) [255] [66]) 1 1).2 = 5 ∧
    readBytes (NoGrowth.set_name (protocolBuf (List.replicate 128 0) [255] [66]) 1 1).1
        MSG_OFFSET 5 = [255, 44, 32, 66, 33] := by
  set_option maxRecDepth 10000 in decide

/-- C5 (amended): for the variants that decode their input fields (`lib.rs`
and `lib_growth.rs`), every in-bounds input whose salutation or name field
bytes are not valid UTF-8 makes `set_name` fail unrecoverably on the `unwrap`
of the decode (a panic, modelled as `none`) — never a value-level error; the
in-place variant performs no decoding and completes normally on such inputs. -/
theorem invalid_utf8_panics_growth (buf : List Nat) (s n : Nat)
    (hsb : SALUT_OFFSET + s ≤ buf.length) (hnb : NAME_OFFSET + n ≤ buf.length)
    (hv : utf8valid (readBytes buf SALUT_OFFSET s) = false
        ∨ utf8valid (readBytes buf NAME_OFFSET n) = false) :
    Growth.set_name buf s n = none := by
  apply set_name_growth_none
  rcases hv with hv | hv
  · exact Or.inl (by simp [hv])
  · exact Or.inr (by simp [hv])

/-- Witness for the amended C5 at the concrete invalid input 0xFF. -/
theorem invalid_utf8_panics_growth_witness :
    Growth.set_name (protocolBuf (List.replicate 128 0) [255] [66]) 1 1 = none :=
  invalid_utf8_panics_growth _ 1 1
    (by simp [protocolBuf_length, SALUT_OFFSET])
    (by simp [protocolBuf_length, NAME_OFFSET])
    (Or.inl (by set_option maxRecDepth 10000 in decide))

/-- C9: for the in-place variant the value returned by `set_name` equals
`sal_len + name_len + 3` for every pair of in-bounds lengths, independent of
the byte contents of the buffer. -/
theorem return_length_formula (buf : List Nat) (s n : Nat)
    (hs : s ≤ 16) (hn : n ≤ 16) (hm : s + n + 3 ≤ 96) :
    (NoGrowth.set_name buf s n).2 = s + n + 3 := by
  rw [set_name_no_growth_eq buf s n hs hn]

/-- Witness for C9 at maximal lengths over a buffer filled with the byte 7. -/
theorem return_length_formula_witness :
    (NoGrowth.set_name (List.replicate 128 7) 16 16).2 = 16 + 16 + 3 :=
  return_length_formula (List.replicate 128 7) 16 16 (by decide) (by decide) (by decide)

/-- C10: the in-place variant performs no UTF-8 validation: for in-bounds
lengths whose field bytes are not (both) valid UTF-8, `set_name` still
completes, copies the field bytes verbatim into the message field as
`sal ++ ", " ++ name ++ "!"`, and returns `sal_len + name_len + 3`. -/
theorem no_utf8_validation_in_place (buf : List Nat) (s n : Nat)
    (hs : s ≤ 16) (hn : n ≤ 16)
    (hv : ¬ (utf8valid (readBytes buf SALUT_OFFSET s) = true
          ∧ utf8valid (readBytes buf NAME_OFFSET n) = true)) :
    NoGrowth.set_name buf s n =
      (writeBytes buf MSG_OFFSET
        (readBytes buf SALUT_OFFSET s ++ [COMMA, SPACE] ++ readBytes buf NAME_OFFSET n
          ++ [BANG]),
       s + n + 3) :=
  set_name_no_growth_eq buf s n hs hn

/-- Witness for C10 at the concrete invalid input 0xFF. -/
theorem no_utf8_validation_in_place_witness :
    NoGrowth.set_name (protocolBuf (List.replicate 128 0) [255] [66]) 1 1 =
      (writeBytes (protocolBuf (List.replicate 128 0) [255] [66]) MSG_OFFSET
        (readBytes (protocolBuf (List.replicate 128 0) [255] [66]) SALUT_OFFSET 1
          ++ [COMMA, SPACE]
          ++ readBytes (protocolBuf (List.replicate 128 0) [255] [66]) NAME_OFFSET 1
          ++ [BANG]),
       1 + 1 + 3) :=
  no_utf8_validation_in_place _ 1 1 (by decide) (by decide)
    (by set_option maxRecDepth 10000 in decide)

theorem readBytes_zero (buf : List Nat) (fro : Nat) : readBytes buf fro 0 = [] := rfl

/-- C6: boundary behaviour of empty fields for the in-place variant: with
`sal_len = 0` the message field receives `", " ++ name ++ "!"` (for name "Bob"
the 6 bytes ", Bob!") and the returned length is `name_len + 3`; symmetrically
with `name_len = 0` the message field receives `salutation ++ ", " ++ "!"` and
the returned length is `sal_len + 3`. -/
theorem empty_field_boundary (buf : List Nat) (s n : Nat)
    (h0 : buf.length = MEMORY_BUFFER_SIZE) (hs : s ≤ 16) (hn : n ≤ 16) :
    (NoGrowth.set_name buf 0 n).2 = n + 3 ∧
    readBytes (NoGrowth.set_name buf 0 n).1 MSG_OFFSET (n + 3)
      = [COMMA, SPACE] ++ readBytes buf NAME_OFFSET n ++ [BANG] ∧
    (NoGrowth.set_name buf s 0).2 = s + 3 ∧
    readBytes (NoGrowth.set_name buf s 0).1 MSG_OFFSET (s + 3)
      = readBytes buf SALUT_OFFSET s ++ [COMMA, SPACE] ++ [BANG] := by
  simp only [MEMORY_BUFFER_SIZE] at h0
  have h1 := set_name_no_growth_eq buf 0 n (by omega) hn
  have h2 := set_name_no_growth_eq buf s 0 hs (by omega)
  rw [readBytes_zero, List.nil_append] at h1
  rw [readBytes_zero, List.append_nil] at h2
  have hlen1 : ([COMMA, SPACE] ++ readBytes buf NAME_OFFSET n ++ [BANG]).length = n + 3 := by
    simp only [List.length_append, List.length_cons, List.length_nil, length_readBytes]
    omega
  have hlen2 : (readBytes buf SALUT_OFFSET s ++ [COMMA, SPACE] ++ [BANG]).length = s + 3 := by
    simp only [List.length_append, List.length_cons, List.length_nil, length_readBytes]
  refine ⟨?_, ?_, ?_, ?_⟩
  · rw [h1]
    show 0 + n + 3 = n + 3
    omega
  · rw [h1]
    dsimp only
    rw [← hlen1]
    exact readBytes_writeBytes_self _ _ _ (by rw [hlen1]; simp only [MSG_OFFSET]; omega)
  · rw [h2]
  · rw [h2]
    dsimp only
    rw [← hlen2]
    exact readBytes_writeBytes_self _ _ _ (by rw [hlen2]; simp only [MSG_OFFSET]; omega)

/-- Witness for C6 at the concrete input: empty salutation and the name "Bob"
over a zeroed buffer. -/
theorem empty_field_boundary_witness :
    (NoGrowth.set_name (protocolBuf (List.replicate 128 0) [] [66, 111, 98]) 0 3).2 = 3 + 3 ∧
    readBytes (NoGrowth.set_name (protocolBuf (List.replicate 128 0) [] [66, 111, 98]) 0 3).1
        MSG_OFFSET (3 + 3)
      = [COMMA, SPACE]
          ++ readBytes (protocolBuf (List.replicate 128 0) [] [66, 111, 98]) NAME_OFFSET 3
          ++ [BANG] :=
  ⟨(empty_field_boundary _ 0 3 (by simp [protocolBuf_length, MEMORY_BUFFER_SIZE])
      (by decide) (by decide)).1,
   (empty_field_boundary _ 0 3 (by simp [protocolBuf_length, MEMORY_BUFFER_SIZE])
      (by decide) (by decide)).2.1⟩

/-- C7: `set_name` is idempotent: calling it twice with the same arguments on
identical input-field contents (the first call leaves the input fields
untouched) produces the same message-field bytes and the same returned length
as calling it once — for the in-place variant, and likewise for the
String-formatting variant (whose second call also succeeds). -/
theorem set_name_idempotent (buf : List Nat) (s n : Nat)
    (h0 : buf.length = MEMORY_BUFFER_SIZE)
    (hs : s ≤ 16) (hn : n ≤ 16) (hm : s + n + 3 ≤ 96) :
    NoGrowth.set_name (NoGrowth.set_name buf s n).1 s n = NoGrowth.set_name buf s n ∧
    (Growth.set_name buf s n).bind (fun p => Growth.set_name p.1 s n)
      = Growth.set_name buf s n := by
  simp only [MEMORY_BUFFER_SIZE] at h0
  have hGlen : (readBytes buf SALUT_OFFSET s ++ [COMMA, SPACE]
      ++ readBytes buf NAME_OFFSET n ++ [BANG]).length = s + n + 3 := by
    simp only [List.length_append, List.length_cons, List.length_nil, length_readBytes]
    omega
  have hng := set_name_no_growth_eq buf s n hs hn
  have hW1 : readBytes (writeBytes buf MSG_OFFSET (readBytes buf SALUT_OFFSET s
        ++ [COMMA, SPACE] ++ readBytes buf NAME_OFFSET n ++ [BANG])) SALUT_OFFSET s
      = readBytes buf SALUT_OFFSET s :=
    readBytes_writeBytes_left _ _ _ _ _ (by simp only [SALUT_OFFSET, MSG_OFFSET]; omega)
  have hW2 : readBytes (writeBytes buf MSG_OFFSET (readBytes buf SALUT_OFFSET s
        ++ [COMMA, SPACE] ++ readBytes buf NAME_OFFSET n ++ [BANG])) NAME_OFFSET n
      = readBytes buf NAME_OFFSET n :=
    readBytes_writeBytes_left _ _ _ _ _ (by simp only [NAME_OFFSET, MSG_OFFSET]; omega)
  have hOW : writeBytes (writeBytes buf MSG_OFFSET (readBytes buf SALUT_OFFSET s
        ++ [COMMA, SPACE] ++ readBytes buf NAME_OFFSET n ++ [BANG])) MSG_OFFSET
        (readBytes buf SALUT_OFFSET s ++ [COMMA, SPACE] ++ readBytes buf NAME_OFFSET n
          ++ [BANG])
      = writeBytes buf MSG_OFFSET (readBytes buf SALUT_OFFSET s ++ [COMMA, SPACE]
          ++ readBytes buf NAME_OFFSET n ++ [BANG]) :=
    writeBytes_overwrite _ _ _ (by rw [hGlen]; simp only [MSG_OFFSET]; omega)
  constructor
  · rw [hng]
    dsimp only
    rw [set_name_no_growth_eq _ s n hs hn, hW1, hW2, hOW]
  · cases hg : Growth.set_name buf s n with
    | none => rfl
    | some p =>
      obtain ⟨hb1', hb2', hv1, hv2, hbEq, hrEq⟩ :=
        set_name_growth_inv buf s n p.1 p.2 (by rw [hg])
      show Growth.set_name p.1 s n = some p
      rw [hbEq]
      rw [set_name_growth_eq _ s n (by rw [length_writeBytes]; exact hb1')
        (by rw [length_writeBytes]; exact hb2')
        (by rw [hW1]; exact hv1) (by rw [hW2]; exact hv2)]
      rw [hW1, hW2, hOW]
      exact congrArg some (Prod.ext hbEq.symm hrEq.symm)

/-- Witness for C7 at the concrete input "Hello" and "World" over a zeroed
buffer. -/
theorem set_name_idempotent_witness :
    NoGrowth.set_name (NoGrowth.set_name (protocolBuf (List.replicate 128 0)
        [72, 101, 108, 108, 111] [87, 111, 114, 108, 100]) 5 5).1 5 5
      = NoGrowth.set_name (protocolBuf (List.replicate 128 0)
        [72, 101, 108, 108, 111] [87, 111, 114, 108, 100]) 5 5 :=
  (set_name_idempotent _ 5 5 (by simp [protocolBuf_length, MEMORY_BUFFER_SIZE])
    (by decide) (by decide) (by decide)).1

/-- C8: `set_name` writes only into the message field: every buffer byte
outside `[MSG_OFFSET, MSG_OFFSET + returned_length)` — in particular the whole
salutation field (bytes 0..16) and the whole name field (bytes 16..32) — has
the same value after the call as before it, for the in-place variant and for
every successful run of the String-formatting variant. -/
theorem set_name_frame (buf : List Nat) (s n : Nat) (hs : s ≤ 16) (hn : n ≤ 16) :
    (∀ i, i < MSG_OFFSET ∨ MSG_OFFSET + (NoGrowth.set_name buf s n).2 ≤ i →
      (NoGrowth.set_name buf s n).1.getD i 0 = buf.getD i 0) ∧
    (∀ b r, Growth.set_name buf s n = some (b, r) →
      ∀ i, i < MSG_OFFSET ∨ MSG_OFFSET + r ≤ i → b.getD i 0 = buf.getD i 0) := by
  have hGlen : (readBytes buf SALUT_OFFSET s ++ [COMMA, SPACE]
      ++ readBytes buf NAME_OFFSET n ++ [BANG]).length = s + n + 3 := by
    simp only [List.length_append, List.length_cons, List.length_nil, length_readBytes]
    omega
  have hng := set_name_no_growth_eq buf s n hs hn
  constructor
  · intro i hi
    rw [hng] at hi ⊢
    dsimp only at hi ⊢
    rcases hi with hi | hi
    · exact getD_writeBytes_lt _ _ _ _ hi
    · exact getD_writeBytes_ge _ _ _ _ (by rw [hGlen]; exact hi)
  · intro b r hbr i hi
    obtain ⟨hb1', hb2', hv1, hv2, hbEq, hrEq⟩ := set_name_growth_inv buf s n b r hbr
    subst hbEq
    subst hrEq
    rcases hi with hi | hi
    · exact getD_writeBytes_lt _ _ _ _ hi
    · exact getD_writeBytes_ge _ _ _ _ (by rw [hGlen]; exact hi)

/-- Witness for C8: byte 0 (start of the salutation field) is unchanged by the
in-place call on the concrete "Hello"/"World" buffer. -/
theorem set_name_frame_witness :
    (NoGrowth.set_name (protocolBuf (List.replicate 128 0)
        [72, 101, 108, 108, 111] [87, 111, 114, 108, 100]) 5 5).1.getD 0 0
      = (protocolBuf (List.replicate 128 0)
        [72, 101, 108, 108, 111] [87, 111, 114, 108, 100]).getD 0 0 :=
  (set_name_frame _ 5 5 (by decide) (by decide)).1 0 (Or.inl (by decide))
